import Mathlib

/-!
Shallow embedding of `scripts/check-docs-consistency.py`, a documentation
consistency checker.  The script is pure text processing plus filesystem
reads; we model the filesystem as an association list from paths to file
contents, model Python's uncaught exceptions with `Except.error`, and

translate each regular expression into an executable character-level
matcher.  The Python regexes are applied with `re.MULTILINE` to whole
documents; all of them are line-shaped (their character classes exclude
newlines except for `\s`, and the anchored ones start at `^`), so the
embedding splits a document into its newline-separated lines and runs the
matchers per line.  Invocations split across physical lines via a `\s`
matching a newline are outside the model; no document exercised here
contains one.
-/

namespace DocsCheck

/-- Python's `\s` character class (ASCII range, as used by the script). -/
def isPySpace (c : Char) : Bool :=
  c = ' ' || c = '\t' || c = '\n' || c = '\r' || c = '\x0b' || c = '\x0c'

/-- The character class of the client-side method regex: ASCII letters,
digits, underscore, dot, slash, hyphen. -/
def isMethodChar (c : Char) : Bool :=
  c.isAlpha || c.isDigit || c = '_' || c = '.' || c = '/' || c = '-'

/-- The character class `[A-Za-z0-9_-]` of the bench-path regex. -/
def isPathSegChar (c : Char) : Bool :=
  c.isAlpha || c.isDigit || c = '_' || c = '-'

/-- The character class `[A-Z0-9_]` of the Rust constant-name regex. -/
def isConstNameChar (c : Char) : Bool :=
  c.isUpper || c.isDigit || c = '_'

/-- The quote alternatives of the client-side method regex. -/
def isQuote (c : Char) : Bool :=
  c = '\'' || c = '"'

/-- Split a character list at newline characters (Python line structure). -/
def splitNl : List Char → List (List Char)
  | [] => [[]]
  | c :: cs =>
    if c = '\n' then [] :: splitNl cs
    else
      match splitNl cs with
      | l :: ls => (c :: l) :: ls
      | [] => [[c]]

/-- The newline-separated lines of a document. -/
def linesOf (s : String) : List String :=
  (splitNl s.data).map String.mk

/-- Substring test: `needle in hay` for Python strings (no newline in needle). -/
def strContains (hay needle : String) : Bool :=
  decide (needle.data <:+: hay.data)

/-- `needle` occurs in some line of a section body. -/
def bodyContains (body : List String) (needle : String) : Bool :=
  body.any (fun l => strContains l needle)

/-- Strict lexicographic comparison of character lists by code point —
Python's `<` on strings. -/
def charListLT : List Char → List Char → Bool
  | [], [] => false
  | [], _ :: _ => true
  | _ :: _, [] => false
  | a :: as, b :: bs => if a = b then charListLT as bs else decide (a < b)

/-- Non-strict lexicographic comparison of character lists by code point —
Python's `<=` on strings. -/
def charListLE : List Char → List Char → Bool
  | [], _ => true
  | _ :: _, [] => false
  | a :: as, b :: bs => if a = b then charListLE as bs else decide (a < b)

/-- Python's `<` on strings. -/
def strLt (a b : String) : Prop := charListLT a.data b.data = true

/-- Python's `<=` on strings. -/
def strLe (a b : String) : Prop := charListLE a.data b.data = true

instance : DecidableRel strLt := fun a b => by unfold strLt; infer_instance

instance : DecidableRel strLe := fun a b => by unfold strLe; infer_instance

/-- `str.startswith`, on the character lists. -/
def strStartsWith (p s : String) : Bool := p.data.isPrefixOf s.data

/-- `str.endswith`, on the character lists. -/
def strEndsWith (p s : String) : Bool := p.data.isSuffixOf s.data

/-- `sorted` on Python strings (lexicographic by code point). -/
def sortStr (l : List String) : List String :=
  l.insertionSort strLe

/-- Lexicographic order on pairs, Python's tuple comparison. -/
def pairLE (p q : String × String) : Prop :=
  strLt p.1 q.1 ∨ (p.1 = q.1 ∧ strLe p.2 q.2)

instance : DecidableRel pairLE := fun p q => by
  unfold pairLE; infer_instance

/-- `sorted` on Python sets of (crate, bench) tuples. -/
def sortPairs (l : List (String × String)) : List (String × String) :=
  l.insertionSort pairLE

/-- The filesystem, as the script sees it: a map from repository-relative
paths to file contents. -/
structure FS where
  files : List (String × String)
deriving DecidableEq

/-- `Path.read_text`, as a partial map. -/
def FS.read? (fs : FS) (p : String) : Option String :=
  (fs.files.find? (fun kv => kv.1 = p)).map (fun kv => kv.2)

/-- `Path.exists`. -/
def FS.pathExists (fs : FS) (p : String) : Bool :=
  (fs.read? p).isSome

/-- `read_text` (line 16): `path.read_text()` raises `FileNotFoundError`
when the file is absent; the exception is modelled by `Except.error`. -/
def read_text (fs : FS) (p : String) : Except String String :=
  match fs.read? p with
  | some t => Except.ok t
  | none => Except.error ("FileNotFoundError: " ++ p)

end DocsCheck

namespace DocsCheck

/-- Characters before the first backtick, and the rest after it. -/
def takeToBacktick : List Char → Option (List Char × List Char)
  | [] => none
  | c :: cs =>
    if c = '`' then some ([], cs)
    else
      match takeToBacktick cs with
      | some (n, r) => some (c :: n, r)
      | none => none

/-- Parse a heading line against the common part of both heading regexes:
the literal prefix, a nonempty backtick-free name, the closing
backtick.  Returns the name and the rest of the line after the closing
backtick. -/
def headingName? (line : String) : Option (String × String) :=
  if line.data.take 5 = "### `".data then
    match takeToBacktick (line.data.drop 5) with
    | some (n, r) => if n.isEmpty then none else some (String.mk n, String.mk r)
    | none => none
  else none

/-- The architecture heading regex (line 35): anchored at both ends, so a
line is recognized only when nothing but whitespace follows the closing
backtick. -/
def archHeading? (line : String) : Option (String × String) :=
  match headingName? line with
  | some (n, t) => if t.data.all isPySpace then some (n, t) else none
  | none => none

/-- The protocol heading regex (line 134) has no end-of-line anchor; the
checker additionally keeps only names with the `nova` slash prefix
(line 135) before section boundaries are computed. -/
def novaHeading? (line : String) : Option (String × String) :=
  match headingName? line with
  | some (n, t) => if strStartsWith "nova/" n then some (n, t) else none
  | none => none

/-- Body collector for `sections`: accumulate lines into the open section
until the next heading (or the end of the document). -/
def sectionsAux (h? : String → Option (String × String)) (n : String)
    (acc : List String) : List String → List (String × List String)
  | [] => [(n, acc.reverse)]
  | l :: ls =>
    match h? l with
    | some (n2, t2) => (n, acc.reverse) :: sectionsAux h? n2 [t2] ls
    | none => sectionsAux h? n (l :: acc) ls

/-- The heading-section split shared by both document checkers: each match
contributes its name and a body running from the end of the match to the
start of the next match (or the end of the document).  The body's first
entry is the rest of the heading line after the closing backtick. -/
def sections (h? : String → Option (String × String)) : List String → List (String × List String)
  | [] => []
  | l :: ls =>
    match h? l with
    | some (n, t) => sectionsAux h? n [t] ls
    | none => sections h? ls

/-- The accumulator characterization: the open section's body extends over
exactly the lines on which the heading pattern fails, and the split
resumes at the next matching line. -/
theorem sectionsAux_eq (h? : String → Option (String × String)) (n : String) :
    ∀ (ls : List String) (acc : List String),
      sectionsAux h? n acc ls
        = (n, acc.reverse ++ ls.takeWhile (fun l => (h? l).isNone))
          :: sections h? (ls.dropWhile (fun l => (h? l).isNone)) := by
  intro ls
  induction ls with
  | nil => intro acc; simp [sectionsAux, sections]
  | cons l ls ih =>
    intro acc
    cases hh : h? l with
    | some nt =>
      obtain ⟨n2, t2⟩ := nt
      have hfalse : ((h? l).isNone : Bool) = false := by rw [hh]; rfl
      simp [sectionsAux, hh, List.takeWhile_cons, List.dropWhile_cons, hfalse, sections]
    | none =>
      have htrue : ((h? l).isNone : Bool) = true := by rw [hh]; rfl
      simp only [sectionsAux, hh, List.takeWhile_cons, List.dropWhile_cons, htrue, if_true]
      rw [ih (l :: acc)]
      simp

/-- Unfolding `sections` at a heading line, in the shape of the source's
section slicing: the body is the heading tail followed by the lines before
the next heading, and the remaining sections start at that heading. -/
theorem sections_cons_heading (h? : String → Option (String × String))
    (l : String) (ls : List String) (n t : String) (hh : h? l = some (n, t)) :
    sections h? (l :: ls)
      = (n, t :: ls.takeWhile (fun l2 => (h? l2).isNone))
        :: sections h? (ls.dropWhile (fun l2 => (h? l2).isNone)) := by
  simp only [sections, hh]
  rw [sectionsAux_eq]
  rfl

/-- The per-section required-field loop (lines 74-79 and 181-186): report
the first missing field and stop. -/
def sectionFieldErrs (mk : String → String → String) (fields : List String)
    (name : String) (body : List String) : List String :=
  match fields.find? (fun f => !(bodyContains body f)) with
  | some f => [mk name f]
  | none => []

/-- The required-field pass over all documented sections. -/
def requiredFieldErrors (mk : String → String → String) (fields : List String)
    (secs : List (String × List String)) : List String :=
  secs.flatMap (fun s => sectionFieldErrs mk fields s.1 s.2)

/-- The ordering loop (lines 82-88): first 1-based position where the two
lists diverge, with the actual and expected entries. -/
def firstDiff : Nat → List String → List String → Option (Nat × String × String)
  | i, a :: as, e :: es => if a = e then firstDiff (i + 1) as es else some (i, a, e)
  | _, _, _ => none

def archDupMsgHead : String :=
  "docs/architecture-map.md contains duplicate crate headings for: "

def archMissingMsgHead : String :=
  "docs/architecture-map.md is missing crate headings for: "

def archExtraMsgHead : String :=
  "docs/architecture-map.md contains headings for crates that no longer exist: "

def archOrderMsgHead : String :=
  "docs/architecture-map.md crate headings are not in alphabetical order: entry "

def archFieldMsg (crate field : String) : String :=
  "docs/architecture-map.md crate section `" ++ crate ++ "` is missing required field: " ++ field

def archRequiredFields : List String :=
  ["- **Purpose:**", "- **Key entry points:**", "- **Maturity:**",
   "- **Known gaps vs intended docs:**"]

/-- `heading_re.finditer(doc)` of the architecture checker. -/
def archSections (docLines : List String) : List (String × List String) :=
  sections archHeading? docLines

/-- `doc_crates_list`. -/
def archDocList (docLines : List String) : List String :=
  (archSections docLines).map Prod.fst

/-- `duplicates` (line 42): the sorted names occurring more than once. -/
def archDuplicates (docLines : List String) : List String :=
  sortStr ((archDocList docLines).dedup.filter
    (fun c => 1 < (archDocList docLines).count c))

/-- `missing` (line 49): inventory crates with no documented heading. -/
def archMissing (crates : List String) (docLines : List String) : List String :=
  crates.filter (fun c => !((archDocList docLines).contains c))

/-- `extra` (line 50): documented headings naming no inventory crate. -/
def archExtra (crates : List String) (docLines : List String) : List String :=
  (sortStr (archDocList docLines).dedup).filter (fun c => !(crates.contains c))

/-- The ordering check (lines 81-88). -/
def archOrderErrs (crates : List String) (docLines : List String) : List String :=
  if (archDuplicates docLines).isEmpty && (archMissing crates docLines).isEmpty
      && (archExtra crates docLines).isEmpty && !(archDocList docLines == crates) then
    match firstDiff 1 (archDocList docLines) crates with
    | some (i, a, e) =>
      [archOrderMsgHead ++ toString i ++ " is `" ++ a ++ "` but expected `" ++ e ++ "`"]
    | none => []
  else []

/-- The architecture checker's error list, for a given (already sorted)
crate inventory and document lines (lines 40-89). -/
def archErrors (crates : List String) (docLines : List String) : List String :=
  (if (archDuplicates docLines).isEmpty then []
   else [archDupMsgHead ++ String.intercalate ", " (archDuplicates docLines)])
  ++ (if (archMissing crates docLines).isEmpty then []
      else [archMissingMsgHead ++ String.intercalate ", " (archMissing crates docLines)])
  ++ (if (archExtra crates docLines).isEmpty then []
      else [archExtraMsgHead ++ String.intercalate ", " (archExtra crates docLines)])
  ++ requiredFieldErrors archFieldMsg archRequiredFields (archSections docLines)
  ++ archOrderErrs crates docLines

/-- `check_architecture_map` (lines 20-89).  The `cargo metadata`
invocation is an external collaborator, passed in as either the package
name list or a failure message; its failure is caught (lines 30-31) and
reported as a single entry.  The document is read only afterwards, with no
handler, so a missing document propagates as `Except.error`. -/
def check_architecture_map (fs : FS) (meta : Except String (List String)) :
    Except String (List String) :=
  match meta with
  | Except.error e =>
    Except.ok ["failed to enumerate workspace crates via cargo metadata: " ++ e]
  | Except.ok packageNames =>
    let crates := sortStr packageNames
    match read_text fs "docs/architecture-map.md" with
    | Except.error e => Except.error e
    | Except.ok doc => Except.ok (archErrors crates (linesOf doc))

end DocsCheck

namespace DocsCheck

/-- `extract_rust_methods`' per-line pattern (line 97): optional leading
whitespace, the literal declaration shape, an uppercase constant name, a
string literal starting with the `nova` slash prefix, the closing
semicolon, then only whitespace to the end of the line. -/
def rustConstLine? (line : String) : Option String :=
  let cs := line.data.dropWhile isPySpace
  if "pub const ".data.isPrefixOf cs then
    let s1 := cs.drop 10
    let name := s1.takeWhile isConstNameChar
    if name.isEmpty then none
    else
      match s1.drop name.length with
      | ':' :: s3 =>
        let s4 := s3.dropWhile isPySpace
        if "&str".data.isPrefixOf s4 then
          match (s4.drop 4).dropWhile isPySpace with
          | '=' :: s6 =>
            let s7 := s6.dropWhile isPySpace
            if "\"nova/".data.isPrefixOf s7 then
              let v := (s7.drop 6).takeWhile (fun c => c ≠ '"')
              if v.isEmpty then none
              else
                let s8 := ((s7.drop 6).drop v.length)
                if "\";".data.isPrefixOf s8 then
                  if (s8.drop 2).all isPySpace then some ("nova/" ++ String.mk v)
                  else none
                else none
            else none
          | _ => none
        else none
      | _ => none
  else none

/-- `extract_rust_methods` (lines 92-101): the matches of the line-anchored
constant pattern over one source file. -/
def extract_rust_methods (text : String) : List String :=
  (linesOf text).filterMap rustConstLine?

/-- One attempt of the client-side literal regex of line 125 at the head of
the text: an opening quote, the `nova` slash prefix, a maximal nonempty run
of method characters, a closing quote (either kind).  Returns the captured
literal and the number of characters consumed by the whole match. -/
def novaMatchAtK : List Char → Option (String × Nat)
  | [] => none
  | c :: s1 =>
    let s2 := s1.drop 5
    let run := s2.takeWhile isMethodChar
    if isQuote c && "nova/".data.isPrefixOf s1 && !run.isEmpty
        && ((s2.drop run.length).headD ' ' |> isQuote)
        && !(s2.drop run.length).isEmpty then
      some (String.mk ("nova/".data ++ run), run.length + 7)
    else none

theorem novaMatchAtK_pos (cs : List Char) (m : String) (k : Nat)
    (h : novaMatchAtK cs = some (m, k)) : 0 < k := by
  match cs with
  | [] => simp [novaMatchAtK] at h
  | c :: s1 =>
    simp only [novaMatchAtK] at h
    split at h
    · simp only [Option.some.injEq, Prod.mk.injEq] at h
      omega
    · exact absurd h (by simp)

/-- `re.findall` of the client-side literal regex: scan left to right,
resuming after the end of each match (after its closing quote). -/
def novaScan : List Char → List String
  | [] => []
  | c :: cs =>
    match h : novaMatchAtK (c :: cs) with
    | some (m, k) => m :: novaScan ((c :: cs).drop k)
    | none => novaScan cs
termination_by l => l.length
decreasing_by
  · have hk := novaMatchAtK_pos _ _ _ h
    simp only [List.length_drop, List.length_cons]
    omega
  · simp

/-- The ignore-list of line 107: known strings of the method shape that are
not protocol methods. -/
def vsIgnore : List String := ["nova/bugreport", "nova/refactor/preview"]

/-- The test-file exclusion of lines 116-120, on the path's segments. -/
def isVsTestPath (parts : List String) : Bool :=
  parts.contains "__tests__" || strEndsWith ".test.ts" (parts.getLastD "")
    || strEndsWith ".node-test.ts" (parts.getLastD "")

/-- `extract_vscode_methods` (lines 104-128): over every non-test client
source file, the `nova` slash literals minus the ignore-list. -/
def extract_vscode_methods (files : List (List String × String)) : List String :=
  files.flatMap (fun f =>
    if isVsTestPath f.1 then []
    else (novaScan f.2.data).filter (fun m => !(vsIgnore.contains m)))

/-- `needed` (line 150): the union of server-declared and client-referenced
methods, as a list with membership as the set semantics. -/
def neededMethods (rustFiles : List String)
    (vsFiles : List (List String × String)) : List String :=
  rustFiles.flatMap extract_rust_methods ++ extract_vscode_methods vsFiles

def protoDupMsgHead : String :=
  "docs/protocol-extensions.md contains duplicate method headings for: "

def protoMissingMsgHead : String :=
  "docs/protocol-extensions.md is missing method headings for: "

def protoExtraMsgHead : String :=
  "docs/protocol-extensions.md contains method headings not referenced by nova-lsp or the VS Code client: "

def protoFieldMsg (method field : String) : String :=
  "docs/protocol-extensions.md method section `" ++ method
    ++ "` is missing required field: " ++ field

def protoRequiredFields : List String := ["- **Kind:**", "- **Stability:**"]

/-- The protocol checker's documented sections (lines 134-135): headings
kept only for names with the `nova` slash prefix, section boundaries
computed after that filter. -/
def novaSections (docLines : List String) : List (String × List String) :=
  sections novaHeading? docLines

/-- `doc_methods_list`. -/
def protoDocList (docLines : List String) : List String :=
  (novaSections docLines).map Prod.fst

/-- `duplicates` (line 154). -/
def protoDuplicates (docLines : List String) : List String :=
  sortStr ((protoDocList docLines).dedup.filter
    (fun m => 1 < (protoDocList docLines).count m))

/-- `missing` (line 161). -/
def protoMissing (rustFiles : List String) (vsFiles : List (List String × String))
    (docLines : List String) : List String :=
  sortStr ((neededMethods rustFiles vsFiles).dedup.filter
    (fun m => !((protoDocList docLines).contains m)))

/-- `extra` (line 168). -/
def protoExtra (rustFiles : List String) (vsFiles : List (List String × String))
    (docLines : List String) : List String :=
  sortStr ((protoDocList docLines).dedup.filter
    (fun m => !((neededMethods rustFiles vsFiles).contains m)))

/-- The protocol checker's error list (lines 152-188). -/
def protoErrors (rustFiles : List String) (vsFiles : List (List String × String))
    (docLines : List String) : List String :=
  (if (protoDuplicates docLines).isEmpty then []
   else [protoDupMsgHead ++ String.intercalate ", " (protoDuplicates docLines)])
  ++ (if (protoMissing rustFiles vsFiles docLines).isEmpty then []
      else [protoMissingMsgHead
        ++ String.intercalate ", " (protoMissing rustFiles vsFiles docLines)])
  ++ (if (protoExtra rustFiles vsFiles docLines).isEmpty then []
      else [protoExtraMsgHead
        ++ String.intercalate ", " (protoExtra rustFiles vsFiles docLines)])
  ++ requiredFieldErrors protoFieldMsg protoRequiredFields (novaSections docLines)

/-- `check_protocol_extensions` (lines 131-188).  The document is read
first, with no handler, so a missing document propagates as
`Except.error`; the scanned source trees are the collaborator inputs. -/
def check_protocol_extensions (fs : FS) (rustFiles : List String)
    (vsFiles : List (List String × String)) : Except String (List String) :=
  match read_text fs "docs/protocol-extensions.md" with
  | Except.error e => Except.error e
  | Except.ok doc => Except.ok (protoErrors rustFiles vsFiles (linesOf doc))

end DocsCheck

namespace DocsCheck

/-- The `\s-p\s+([^\s]+)` part of the bench regexes (lines 206, 248, 293),
anchored at the head of the text: a whitespace character, the flag, at
least one whitespace character, then the maximal nonempty run of
non-whitespace characters (the captured package name).  Returns the
capture and the characters consumed. -/
def pTailK : List Char → Option (String × Nat)
  | [] => none
  | c :: s1 =>
    let sp := (s1.drop 2).takeWhile isPySpace
    let a := ((s1.drop 2).drop sp.length).takeWhile (fun ch => !isPySpace ch)
    if isPySpace c && "-p".data.isPrefixOf s1 && !sp.isEmpty && !a.isEmpty then
      some (String.mk a, 3 + sp.length + a.length)
    else none

/-- The `\s--bench\s+(...)` part, with `ban` the extra characters excluded
from the capture class (empty for `[^\s]+`, a backtick for the broader
command regex of line 248). -/
def benchTailK (ban : List Char) : List Char → Option (String × Nat)
  | [] => none
  | c :: s1 =>
    let sp := (s1.drop 7).takeWhile isPySpace
    let b := ((s1.drop 7).drop sp.length).takeWhile
      (fun ch => !isPySpace ch && !(ban.contains ch))
    if isPySpace c && "--bench".data.isPrefixOf s1 && !sp.isEmpty && !b.isEmpty then
      some (String.mk b, 8 + sp.length + b.length)
    else none

/-- Greedy `[^\n]*` before an anchored sub-pattern: the sub-pattern is
applied at the rightmost position (largest skip) where it succeeds, which
is how the backtracking engine resolves the greedy gap.  Returns the
sub-pattern's answer and the skip. -/
def rightmostK {α : Type} (f : List Char → Option α) : List Char → Option (α × Nat)
  | [] => (f []).map (fun x => (x, 0))
  | c :: cs =>
    match rightmostK f cs with
    | some (x, off) => some (x, off + 1)
    | none => (f (c :: cs)).map (fun x => (x, 0))

/-- `\s-p\s+([^\s]+)[^\n]*\s--bench\s+(...)` anchored at the given text:
the package capture, then the greedy gap, then the bench capture.
Returns both captures and the characters consumed through the end of the
bench capture. -/
def pbAt (ban : List Char) (t : List Char) : Option (String × String × Nat) :=
  match pTailK t with
  | some (a, k1) =>
    match rightmostK (benchTailK ban) (t.drop k1) with
    | some ((b, k2), off2) => some (a, b, k1 + off2 + k2)
    | none => none
  | none => none

/-- `[^\n]*\s-p\s+([^\s]+)[^\n]*\s--bench\s+(...)`: the leading greedy gap
picks the rightmost `-p` for which the rest still matches. -/
def pbPartK (ban : List Char) (s : List Char) : Option (String × String × Nat) :=
  match rightmostK (pbAt ban) s with
  | some ((a, b, k), off) => some (a, b, off + k)
  | none => none

theorem pTailK_pos (s : List Char) (a : String) (k : Nat)
    (h : pTailK s = some (a, k)) : 0 < k := by
  match s with
  | [] => simp [pTailK] at h
  | c :: s1 =>
    simp only [pTailK] at h
    split at h
    · simp only [Option.some.injEq, Prod.mk.injEq] at h
      omega
    · exact absurd h (by simp)

theorem rightmostK_some {α : Type} (f : List Char → Option α) :
    ∀ (s : List Char) (x : α) (off : Nat),
      rightmostK f s = some (x, off) → f (s.drop off) = some x := by
  intro s
  induction s with
  | nil =>
    intro x off h
    simp only [rightmostK, Option.map_eq_some'] at h
    obtain ⟨y, hy, hxy⟩ := h
    obtain ⟨rfl, rfl⟩ := Prod.mk.injEq .. ▸ hxy
    simpa using hy
  | cons c cs ih =>
    intro x off h
    simp only [rightmostK] at h
    cases hrec : rightmostK f cs with
    | some p =>
      rw [hrec] at h
      obtain ⟨y, o⟩ := p
      simp only [Option.some.injEq, Prod.mk.injEq] at h
      obtain ⟨rfl, rfl⟩ := h
      simpa using ih y o hrec
    | none =>
      rw [hrec] at h
      simp only [Option.map_eq_some'] at h
      obtain ⟨y, hy, hxy⟩ := h
      obtain ⟨rfl, rfl⟩ := Prod.mk.injEq .. ▸ hxy
      simpa using hy

end DocsCheck

namespace DocsCheck

theorem pbAt_pos (ban : List Char) (t : List Char) (a b : String) (k : Nat)
    (h : pbAt ban t = some (a, b, k)) : 0 < k := by
  unfold pbAt at h
  split at h
  case h_2 => exact absurd h (by simp)
  case h_1 a1 k1 h1 =>
    split at h
    case h_2 => exact absurd h (by simp)
    case h_1 b2 k2 off2 h2 =>
      simp only [Option.some.injEq, Prod.mk.injEq] at h
      have := pTailK_pos t a1 k1 h1
      omega

theorem pbPartK_pos (ban : List Char) (s : List Char) (a b : String) (k : Nat)
    (h : pbPartK ban s = some (a, b, k)) : 0 < k := by
  unfold pbPartK at h
  split at h
  case h_2 => exact absurd h (by simp)
  case h_1 a1 b1 k1 off h1 =>
    simp only [Option.some.injEq, Prod.mk.injEq] at h
    have := pbAt_pos ban (s.drop off) a1 b1 k1 (rightmostK_some _ s _ off h1)
    omega

/-- One line against the workflow bench regex (lines 205-208, also the
reference-document regex of lines 292-295): `^\s*cargo bench` then the
package and bench captures. -/
def benchLineMatch (line : String) : Option (String × String) :=
  let cs := line.data.dropWhile isPySpace
  if "cargo bench".data.isPrefixOf cs then
    (pbPartK [] (cs.drop 11)).map (fun r => (r.1, r.2.1))
  else none

/-- `bench_re.findall(workflow)`: the line-anchored pattern matches at most
once per line. -/
def benchFindall (text : String) : List (String × String) :=
  (linesOf text).filterMap benchLineMatch

/-- The opening alternation of the command regex (line 248): either
`cargo bench` or the agent-wrapper invocation.  Returns the characters
consumed. -/
def cmdOpener (cs : List Char) : Option Nat :=
  if "cargo bench".data.isPrefixOf cs then some 11
  else if "bash".data.isPrefixOf cs then
    let s1 := cs.drop 4
    let sp := s1.takeWhile isPySpace
    let s2 := s1.drop sp.length
    let dotSlash := if "./".data.isPrefixOf s2 then 2 else 0
    let s3 := s2.drop dotSlash
    if !sp.isEmpty && "scripts/cargo_agent.sh".data.isPrefixOf s3 then
      let s4 := s3.drop 22
      let sp2 := s4.takeWhile isPySpace
      if !sp2.isEmpty && "bench".data.isPrefixOf (s4.drop sp2.length) then
        some (4 + sp.length + dotSlash + 22 + sp2.length + 5)
      else none
    else none
  else none

/-- One attempt of the command regex at the head of the text. -/
def cmdMatchAtK (cs : List Char) : Option (String × String × Nat) :=
  match cmdOpener cs with
  | some k0 =>
    match pbPartK ['`'] (cs.drop k0) with
    | some (a, b, k) => some (a, b, k0 + k)
    | none => none
  | none => none

theorem cmdMatchAtK_pos (cs : List Char) (a b : String) (k : Nat)
    (h : cmdMatchAtK cs = some (a, b, k)) : 0 < k := by
  unfold cmdMatchAtK at h
  split at h
  case h_2 => exact absurd h (by simp)
  case h_1 k0 h0 =>
    split at h
    case h_2 => exact absurd h (by simp)
    case h_1 a1 b1 k1 h1 =>
      simp only [Option.some.injEq, Prod.mk.injEq] at h
      have := pbPartK_pos ['`'] (cs.drop k0) a1 b1 k1 h1
      omega

/-- `re.findall` of the command regex over one line: scan left to right,
resuming after each match. -/
def cmdScanLine : List Char → List (String × String)
  | [] => []
  | c :: cs =>
    match h : cmdMatchAtK (c :: cs) with
    | some (a, b, k) => (a, b) :: cmdScanLine ((c :: cs).drop k)
    | none => cmdScanLine cs
termination_by l => l.length
decreasing_by
  · have hk := cmdMatchAtK_pos _ _ _ _ h
    simp only [List.length_drop, List.length_cons]
    omega
  · simp

/-- `bench_cmd_re.findall(doc)` (line 248), applied per line. -/
def cmdFindall (text : String) : List (String × String) :=
  (linesOf text).flatMap (fun l => cmdScanLine l.data)

/-- One attempt of the bench-path regex (line 246) at the head of the
text: the literal segments with two maximal nonempty runs of path
characters.  Returns the full matched path and the characters consumed. -/
def pathMatchAtK (cs : List Char) : Option (String × Nat) :=
  if "crates/".data.isPrefixOf cs then
    let s1 := cs.drop 7
    let seg1 := s1.takeWhile isPathSegChar
    let s2 := s1.drop seg1.length
    if !seg1.isEmpty && "/benches/".data.isPrefixOf s2 then
      let s3 := s2.drop 9
      let seg2 := s3.takeWhile isPathSegChar
      if !seg2.isEmpty && ".rs".data.isPrefixOf (s3.drop seg2.length) then
        some (String.mk ("crates/".data ++ seg1 ++ "/benches/".data ++ seg2 ++ ".rs".data),
          7 + seg1.length + 9 + seg2.length + 3)
      else none
    else none
  else none

theorem pathMatchAtK_pos (cs : List Char) (m : String) (k : Nat)
    (h : pathMatchAtK cs = some (m, k)) : 0 < k := by
  simp only [pathMatchAtK] at h
  split at h
  · split at h
    · split at h
      · simp only [Option.some.injEq, Prod.mk.injEq] at h
        omega
      · exact absurd h (by simp)
    · exact absurd h (by simp)
  · exact absurd h (by simp)

/-- `bench_path_re.findall(doc)`: scan the whole document (the pattern
cannot cross a newline), resuming after each match. -/
def pathScan : List Char → List String
  | [] => []
  | c :: cs =>
    match h : pathMatchAtK (c :: cs) with
    | some (m, k) => m :: pathScan ((c :: cs).drop k)
    | none => pathScan cs
termination_by l => l.length
decreasing_by
  · have hk := pathMatchAtK_pos _ _ _ h
    simp only [List.length_drop, List.length_cons]
    omega
  · simp

def pathFindall (text : String) : List String :=
  pathScan text.data

end DocsCheck

namespace DocsCheck

/-- `threshold_paths` (lines 230-233). -/
def thresholdPaths : List String :=
  ["perf/thresholds.toml", "perf/runtime-thresholds.toml"]

/-- `docs_require_paths` (lines 220-223), repository-relative. -/
def docsRequirePaths : List String :=
  ["docs/14-testing-strategy.md", "docs/14-testing-infrastructure.md"]

/-- `suites` (line 209): the deduplicated, sorted (crate, bench) pairs of
the workflow. -/
def perfSuites (workflow : String) : List (String × String) :=
  sortPairs (benchFindall workflow).dedup

def perfShapeErr : String :=
  "expected .github/workflows/perf.yml to contain `cargo bench -p <crate> --bench <name>` invocations"

/-- The expected bench source path of a suite (lines 215, 239). -/
def benchPathOf (s : String × String) : String :=
  "crates/" ++ s.1 ++ "/benches/" ++ s.2 ++ ".rs"

/-- The per-narrative-document checks of lines 250-286: bench paths, bench
commands, and configuration mentions; a missing document is itself the
only finding for that document. -/
def perfDocErrs (fs : FS) (suites : List (String × String)) (rel : String) : List String :=
  match fs.read? rel with
  | none => ["expected " ++ rel ++ " to exist"]
  | some doc =>
    let expectedPaths := (suites.map benchPathOf).dedup
    let present := (pathFindall doc).dedup
    let missing := sortStr (expectedPaths.filter (fun p => !(present.contains p)))
    let extra := sortStr (present.filter (fun p => !(expectedPaths.contains p)))
    let presentCmds := (cmdFindall doc).dedup
    let missingCmds := sortPairs (suites.filter (fun s => !(presentCmds.contains s)))
    let extraCmds := sortPairs (presentCmds.filter (fun s => !(suites.contains s)))
    (if missing.isEmpty then []
     else [rel ++ " is missing CI perf bench paths: " ++ String.intercalate ", " missing])
    ++ (if extra.isEmpty then []
        else [rel ++ " mentions bench paths not gated by `.github/workflows/perf.yml`: "
          ++ String.intercalate ", " extra])
    ++ (if missingCmds.isEmpty then []
        else [rel ++ " is missing CI perf bench commands for: "
          ++ String.intercalate ", " (missingCmds.map (fun s => s.1 ++ "::" ++ s.2))])
    ++ (if extraCmds.isEmpty then []
        else [rel ++ " includes bench commands not gated by `.github/workflows/perf.yml`: "
          ++ String.intercalate ", " (extraCmds.map (fun s => s.1 ++ "::" ++ s.2))])
    ++ thresholdPaths.filterMap (fun t =>
        if strContains doc t then none
        else some (rel ++ " does not mention " ++ t ++ " (perf tooling config)"))

/-- The operational-reference checks of lines 288-311: the line-anchored
bench regex only, plus the configuration mentions. -/
def perfReadmeErrs (fs : FS) (suites : List (String × String)) : List String :=
  match fs.read? "perf/README.md" with
  | none => ["expected perf/README.md to exist"]
  | some doc =>
    let present := (benchFindall doc).dedup
    let missingSuites := sortPairs (suites.filter (fun s => !(present.contains s)))
    let extraSuites := sortPairs (present.filter (fun s => !(suites.contains s)))
    (if missingSuites.isEmpty then []
     else ["perf/README.md is missing CI bench commands for: "
       ++ String.intercalate ", " (missingSuites.map (fun s => s.1 ++ "::" ++ s.2))])
    ++ (if extraSuites.isEmpty then []
        else ["perf/README.md includes bench commands not gated by `.github/workflows/perf.yml`: "
          ++ String.intercalate ", " (extraSuites.map (fun s => s.1 ++ "::" ++ s.2))])
    ++ thresholdPaths.filterMap (fun t =>
        if strContains doc t then none
        else some ("perf/README.md does not mention " ++ t ++ " (perf tooling config)"))

/-- `check_perf_docs` (lines 191-313).  A missing workflow yields no
findings (lines 199-201); an extraction yielding no suites yields exactly
the shape error (lines 210-213); otherwise the configuration-file,
bench-file, narrative-document and reference-document checks run in
source order. -/
def check_perf_docs (fs : FS) : List String :=
  match fs.read? ".github/workflows/perf.yml" with
  | none => []
  | some workflow =>
    let suites := perfSuites workflow
    if suites.isEmpty then [perfShapeErr]
    else
      thresholdPaths.filterMap (fun rel =>
        if fs.pathExists rel then none else some ("expected " ++ rel ++ " to exist"))
      ++ suites.filterMap (fun s =>
          if fs.pathExists (benchPathOf s) then none
          else some (".github/workflows/perf.yml references `cargo bench -p " ++ s.1
            ++ " --bench " ++ s.2 ++ "` but " ++ benchPathOf s ++ " does not exist"))
      ++ docsRequirePaths.flatMap (perfDocErrs fs suites)
      ++ perfReadmeErrs fs suites

/-- The observable outcome of a run: exit code, standard output lines,
standard error lines. -/
structure RunResult where
  exitCode : Nat
  stdout : List String
  stderr : List String
deriving DecidableEq

/-- `main` (lines 316-328): run the three checkers in order, concatenate,
and map the result onto the exit contract.  An exception escaping a
checker escapes `main` (modelled by `Except.error`). -/
def main (fs : FS) (meta : Except String (List String)) (rustFiles : List String)
    (vsFiles : List (List String × String)) : Except String RunResult :=
  match check_architecture_map fs meta with
  | Except.error e => Except.error e
  | Except.ok archE =>
    match check_protocol_extensions fs rustFiles vsFiles with
    | Except.error e => Except.error e
    | Except.ok protoE =>
      let errors := archE ++ protoE ++ check_perf_docs fs
      if errors.isEmpty then
        Except.ok ⟨0, ["docs consistency check: ok"], []⟩
      else
        Except.ok ⟨1, [], errors.map (fun e => "error: " ++ e)⟩

end DocsCheck

namespace DocsCheck

/-- C1 counterexample: with an empty filesystem (the architecture and
protocol documents both absent) and a successful crate enumeration, neither
checker returns an error report at all — the read failure escapes as an
exception instead of becoming an ordinary entry, refuting the claim at
this concrete input. -/
theorem c1_counterexample :
    check_architecture_map ⟨[]⟩ (Except.ok [])
        = Except.error "FileNotFoundError: docs/architecture-map.md"
    ∧ check_protocol_extensions ⟨[]⟩ [] []
        = Except.error "FileNotFoundError: docs/protocol-extensions.md" := by
  exact ⟨rfl, rfl⟩

/-- C1 (amended): when `docs/architecture-map.md` is absent the
architecture checker raises (the `FileNotFoundError` of the unguarded
`read_text` escapes uncaught, rather than being reported as an ordinary
entry), and likewise the protocol checker when
`docs/protocol-extensions.md` is absent; only the `cargo metadata` failure
is converted into an ordinary report entry. -/
theorem c1_missing_required_doc_raises (fs : FS) (names : List String)
    (rustFiles : List String) (vsFiles : List (List String × String))
    (harch : fs.read? "docs/architecture-map.md" = none)
    (hproto : fs.read? "docs/protocol-extensions.md" = none) :
    check_architecture_map fs (Except.ok names)
        = Except.error "FileNotFoundError: docs/architecture-map.md"
    ∧ check_protocol_extensions fs rustFiles vsFiles
        = Except.error "FileNotFoundError: docs/protocol-extensions.md" := by
  constructor
  · simp only [check_architecture_map, read_text, harch]
    rfl
  · simp only [check_protocol_extensions, read_text, hproto]
    rfl

/-- C1 witness: a filesystem holding only an unrelated file. -/
theorem c1_witness :
    check_architecture_map ⟨[("README.md", "hello")]⟩ (Except.ok ["core"])
        = Except.error "FileNotFoundError: docs/architecture-map.md"
    ∧ check_protocol_extensions ⟨[("README.md", "hello")]⟩ [] []
        = Except.error "FileNotFoundError: docs/protocol-extensions.md" :=
  c1_missing_required_doc_raises ⟨[("README.md", "hello")]⟩ ["core"] [] []
    (by decide) (by decide)

/-- The workflow text of the C2 scenario. -/
def c2Line : String :=
  "cargo bench -p core -p core --bench index -p foo --bench parse"

/-- A filesystem whose only file is a workflow holding the C2 line. -/
def fsC2 : FS := ⟨[(".github/workflows/perf.yml", c2Line)]⟩

/-- C2 counterexample: on the given line the perf checker does not extract
zero suites, and its report is not the single expected-invocation-shape
error. -/
theorem c2_counterexample :
    ¬(perfSuites c2Line = [] ∧ check_perf_docs fsC2 = [perfShapeErr]) := by
  intro h
  exact absurd h.1 (by decide)

/-- C2 (amended): the backtracking regex does match the malformed line —
the greedy gaps select the last `-p` and `--bench` occurrences — so
exactly the one suite `(foo, parse)` is extracted, and instead of the
expected-invocation-shape error the checker reports the downstream
findings for that suite (missing config files, missing bench source,
missing documents on this filesystem). -/
theorem c2_malformed_line_extracts_last_pair :
    perfSuites c2Line = [("foo", "parse")]
    ∧ check_perf_docs fsC2 =
      ["expected perf/thresholds.toml to exist",
       "expected perf/runtime-thresholds.toml to exist",
       ".github/workflows/perf.yml references `cargo bench -p foo --bench parse` but crates/foo/benches/parse.rs does not exist",
       "expected docs/14-testing-strategy.md to exist",
       "expected docs/14-testing-infrastructure.md to exist",
       "expected perf/README.md to exist"] := by
  exact ⟨by decide, by decide⟩

/-- C7: a missing CI workflow document makes the perf checker report
nothing, whatever else the filesystem holds. -/
theorem c7_missing_workflow_no_findings (fs : FS)
    (h : fs.read? ".github/workflows/perf.yml" = none) :
    check_perf_docs fs = [] := by
  unfold check_perf_docs
  rw [h]

/-- C7 witness: benchmark and configuration state present, workflow
absent. -/
theorem c7_witness :
    check_perf_docs ⟨[("perf/README.md", "stale"),
      ("crates/core/benches/index.rs", "fn main() \x7b\x7d"),
      ("perf/thresholds.toml", "")]⟩ = [] :=
  c7_missing_workflow_no_findings _ (by decide)

end DocsCheck

namespace DocsCheck

/-- C3 counterexample: `nova/bugreport` is in the ignore-list, yet with a
server-side constant declaring it, it is an element of the needed set —
the ignore-list is applied only to the client-side extraction. -/
theorem c3_counterexample :
    "nova/bugreport" ∈ vsIgnore
    ∧ "nova/bugreport" ∈
        neededMethods ["pub const BUGREPORT: &str = \"nova/bugreport\";"] [] := by
  exact ⟨by decide, by decide⟩

/-- C3 (amended): an ignore-list string is excluded from the
client-referenced extraction over every client file set, so it belongs to
the needed set exactly when the server-side constant extraction produces
it; the ignore-list does not shield the server-declared provenance. -/
theorem c3_ignore_list_is_client_side_only (s : String) (hs : s ∈ vsIgnore)
    (rustFiles : List String) (vsFiles : List (List String × String)) :
    s ∉ extract_vscode_methods vsFiles
    ∧ (s ∈ neededMethods rustFiles vsFiles
        ↔ s ∈ rustFiles.flatMap extract_rust_methods) := by
  have hnot : s ∉ extract_vscode_methods vsFiles := by
    intro h
    unfold extract_vscode_methods at h
    rw [List.mem_flatMap] at h
    obtain ⟨f, _, hm⟩ := h
    split at hm
    · simp at hm
    · rw [List.mem_filter] at hm
      have h2 := hm.2
      simp [hs] at h2
  refine ⟨hnot, ?_⟩
  unfold neededMethods
  rw [List.mem_append]
  constructor
  · rintro (h | h)
    · exact h
    · exact absurd h hnot
  · exact Or.inl

/-- C3 witness: `nova/refactor/preview` referenced in a client file is
not needed when no server constant declares it. -/
theorem c3_witness :
    "nova/refactor/preview" ∉
        extract_vscode_methods [(["ext.ts"], "send('nova/refactor/preview')")]
    ∧ ("nova/refactor/preview" ∈
          neededMethods [] [(["ext.ts"], "send('nova/refactor/preview')")]
        ↔ "nova/refactor/preview" ∈
            ([] : List String).flatMap extract_rust_methods) :=
  c3_ignore_list_is_client_side_only "nova/refactor/preview" (by decide) []
    [(["ext.ts"], "send('nova/refactor/preview')")]

/-- C8: with both document checkers returning reports (no escaping
exception), the run exits 0 with the single confirmation line and no
error output when the concatenated report is empty, and exits 1 writing
exactly one `error: `-prefixed line per entry to the error stream — in
checker order (architecture, protocol, perf), each checker's entries in
detection order — when it is not. -/
theorem c8_exit_contract (fs : FS) (meta : Except String (List String))
    (rustFiles : List String) (vsFiles : List (List String × String))
    (archE protoE : List String)
    (h1 : check_architecture_map fs meta = Except.ok archE)
    (h2 : check_protocol_extensions fs rustFiles vsFiles = Except.ok protoE) :
    (archE ++ protoE ++ check_perf_docs fs = [] →
      main fs meta rustFiles vsFiles
        = Except.ok ⟨0, ["docs consistency check: ok"], []⟩)
    ∧ (archE ++ protoE ++ check_perf_docs fs ≠ [] →
      main fs meta rustFiles vsFiles
        = Except.ok ⟨1, [],
            (archE ++ protoE ++ check_perf_docs fs).map (fun e => "error: " ++ e)⟩) := by
  unfold main
  rw [h1, h2]
  constructor
  · intro h
    simp [h]
  · intro h
    have hne : (archE ++ protoE ++ check_perf_docs fs).isEmpty = false := by
      simpa [List.isEmpty_iff] using h
    simp only [hne]
    rw [if_neg (by simp)]

/-- C8 witness: a fully consistent (trivially empty) configuration exits
0 with the confirmation line. -/
theorem c8_witness :
    main ⟨[("docs/architecture-map.md", ""), ("docs/protocol-extensions.md", "")]⟩
        (Except.ok []) [] []
      = Except.ok ⟨0, ["docs consistency check: ok"], []⟩ :=
  (c8_exit_contract _ _ _ _ [] [] (by rfl) (by rfl)).1 (by decide)

end DocsCheck

namespace DocsCheck

theorem sectionsAux_mem_name (h? : String → Option (String × String)) :
    ∀ (ls : List String) (n0 : String) (acc : List String) (n : String)
      (b : List String), (n, b) ∈ sectionsAux h? n0 acc ls →
      n = n0 ∨ ∃ l t, h? l = some (n, t) := by
  intro ls
  induction ls with
  | nil =>
    intro n0 acc n b h
    simp only [sectionsAux, List.mem_singleton, Prod.mk.injEq] at h
    exact Or.inl h.1
  | cons l ls ih =>
    intro n0 acc n b h
    cases hh : h? l with
    | some nt =>
      obtain ⟨n2, t2⟩ := nt
      simp only [sectionsAux, hh] at h
      rcases List.mem_cons.mp h with heq | hmem
      · left
        exact (Prod.mk.injEq .. ▸ heq).1
      · rcases ih n2 [t2] n b hmem with rfl | hex
        · exact Or.inr ⟨l, t2, hh⟩
        · exact Or.inr hex
    | none =>
      simp only [sectionsAux, hh] at h
      exact ih n0 (l :: acc) n b h

/-- Every section name was produced by the heading pattern on some line. -/
theorem sections_mem_name (h? : String → Option (String × String)) :
    ∀ (lines : List String) (n : String) (b : List String),
      (n, b) ∈ sections h? lines → ∃ l t, h? l = some (n, t) := by
  intro lines
  induction lines with
  | nil => intro n b h; simp [sections] at h
  | cons l ls ih =>
    intro n b h
    cases hh : h? l with
    | some nt =>
      obtain ⟨n2, t2⟩ := nt
      simp only [sections, hh] at h
      rcases sectionsAux_mem_name h? ls n2 [t2] n b h with rfl | hex
      · exact ⟨l, t2, hh⟩
      · exact hex
    | none =>
      simp only [sections, hh] at h
      exact ih n b h

theorem novaHeading_starts_nova (l n t : String) (h : novaHeading? l = some (n, t)) :
    strStartsWith "nova/" n = true := by
  unfold novaHeading? at h
  split at h
  case h_2 => exact absurd h (by simp)
  case h_1 n1 t1 heq =>
    split at h
    · rename_i hpre
      simp only [Option.some.injEq, Prod.mk.injEq] at h
      exact h.1 ▸ hpre
    · exact absurd h (by simp)

/-- The document of the C9 scenario: a `nova` method section, a required
field, an intervening non-nova heading, then another required field. -/
def c9doc : List String :=
  ["### `nova/alpha`", "- **Kind:** request", "### `not-a-method`",
   "- **Stability:** experimental"]

/-- C9: every section the protocol checker reasons over carries a
`nova`-prefixed name (non-nova headings are invisible to the duplicate,
missing or extra, and required-field checks), yet a non-nova heading line
does not close the enclosing section: in the concrete document the
excluded heading and the text under it are part of the `nova/alpha` body,
so the `Stability` marker placed under the excluded heading satisfies that
section's required-field check. -/
theorem c9_non_nova_headings_excluded_but_body_spans (lines : List String)
    (n : String) (b : List String) (hmem : (n, b) ∈ novaSections lines) :
    strStartsWith "nova/" n = true
    ∧ novaSections c9doc
        = [("nova/alpha",
            ["", "- **Kind:** request", "### `not-a-method`",
             "- **Stability:** experimental"])]
    ∧ (headingName? "### `not-a-method`").isSome = true
    ∧ (novaHeading? "### `not-a-method`").isNone = true
    ∧ requiredFieldErrors protoFieldMsg protoRequiredFields (novaSections c9doc)
        = [] := by
  refine ⟨?_, by decide, by decide, by decide, by decide⟩
  obtain ⟨l, t, hh⟩ := sections_mem_name novaHeading? lines n b hmem
  exact novaHeading_starts_nova l n t hh

/-- C9 witness: the concrete document's only section. -/
theorem c9_witness :
    strStartsWith "nova/" "nova/alpha" = true
    ∧ novaSections c9doc
        = [("nova/alpha",
            ["", "- **Kind:** request", "### `not-a-method`",
             "- **Stability:** experimental"])]
    ∧ (headingName? "### `not-a-method`").isSome = true
    ∧ (novaHeading? "### `not-a-method`").isNone = true
    ∧ requiredFieldErrors protoFieldMsg protoRequiredFields (novaSections c9doc)
        = [] :=
  c9_non_nova_headings_excluded_but_body_spans c9doc "nova/alpha"
    ["", "- **Kind:** request", "### `not-a-method`", "- **Stability:** experimental"]
    (by decide)

end DocsCheck

namespace DocsCheck

theorem takeToBacktick_no_bt (n : List Char) (r : List Char)
    (hn : ∀ c ∈ n, c ≠ '`') :
    takeToBacktick (n ++ '`' :: r) = some (n, r) := by
  induction n with
  | nil => simp [takeToBacktick]
  | cons c cs ih =>
    have hc : ¬(c = '`') := hn c (List.mem_cons_self c cs)
    simp only [List.cons_append, takeToBacktick, if_neg hc, List.append_eq]
    rw [ih (fun x hx => hn x (List.mem_cons_of_mem c hx))]

/-- C10: a heading line carrying non-whitespace text after the closing
backtick is rejected by the architecture heading pattern (anchored to the
end of the line) and contributes no architecture section, while the
protocol heading pattern (no end anchor) accepts the same line, so with a
`nova`-prefixed name it becomes a documented method section whose body
starts with that trailing text. -/
theorem c10_trailing_text_heading_asymmetry (name rest : String)
    (hne : name ≠ "") (hbt : ∀ c ∈ name.data, c ≠ '`')
    (hws : ∃ c ∈ rest.data, isPySpace c = false) :
    headingName? ("### `" ++ name ++ "`" ++ rest) = some (name, rest)
    ∧ archHeading? ("### `" ++ name ++ "`" ++ rest) = none
    ∧ archSections ["### `" ++ name ++ "`" ++ rest] = []
    ∧ (strStartsWith "nova/" name = true →
        novaHeading? ("### `" ++ name ++ "`" ++ rest) = some (name, rest)
        ∧ novaSections ["### `" ++ name ++ "`" ++ rest] = [(name, [rest])]) := by
  obtain ⟨nd⟩ := name
  obtain ⟨rd⟩ := rest
  have hdata : (("### `" ++ ⟨nd⟩ ++ "`" ++ ⟨rd⟩ : String) : String).data
      = "### `".data ++ (nd ++ '`' :: rd) := by
    simp [String.data_append]
  have h5 : ("### `".data).length = 5 := rfl
  have hnd : (⟨nd⟩ : String).data = nd := rfl
  have hndE : nd.isEmpty = false := by
    cases nd with
    | nil => exact absurd rfl hne
    | cons a as => rfl
  have hname : headingName? ("### `" ++ ⟨nd⟩ ++ "`" ++ ⟨rd⟩) = some (⟨nd⟩, ⟨rd⟩) := by
    unfold headingName?
    rw [hdata, List.take_left' h5, List.drop_left' h5, if_pos rfl,
      takeToBacktick_no_bt nd rd (hnd ▸ hbt)]
    simp [hndE]
  have hall : rd.all isPySpace = false := by
    rcases hws with ⟨c, hc, hcf⟩
    rw [List.all_eq_false]
    exact ⟨c, hc, by simp [hcf]⟩
  have harch : archHeading? ("### `" ++ ⟨nd⟩ ++ "`" ++ ⟨rd⟩) = none := by
    unfold archHeading?
    rw [hname]
    simp [hall]
  refine ⟨hname, harch, ?_, ?_⟩
  · simp [archSections, sections, harch]
  · intro hpre
    have hnova : novaHeading? ("### `" ++ ⟨nd⟩ ++ "`" ++ ⟨rd⟩) = some (⟨nd⟩, ⟨rd⟩) := by
      unfold novaHeading?
      rw [hname]
      simp [hpre]
    refine ⟨hnova, ?_⟩
    simp [novaSections, sections, hnova, sectionsAux]

/-- C10 witness: the two concrete lines of the claim. -/
theorem c10_witness :
    headingName? ("### `" ++ "nova/x" ++ "`" ++ " extra") = some ("nova/x", " extra")
    ∧ archHeading? ("### `" ++ "nova/x" ++ "`" ++ " extra") = none
    ∧ archSections ["### `" ++ "nova/x" ++ "`" ++ " extra"] = []
    ∧ (strStartsWith "nova/" "nova/x" = true →
        novaHeading? ("### `" ++ "nova/x" ++ "`" ++ " extra") = some ("nova/x", " extra")
        ∧ novaSections ["### `" ++ "nova/x" ++ "`" ++ " extra"]
          = [("nova/x", [" extra"])]) :=
  c10_trailing_text_heading_asymmetry "nova/x" " extra" (by decide) (by decide)
    (by decide)

theorem find?_eq_some_split {α : Type} (p : α → Bool) :
    ∀ (l : List α) (x : α), l.find? p = some x →
      ∃ l1 l2, l = l1 ++ x :: l2 ∧ (∀ g ∈ l1, p g = false) ∧ p x = true := by
  intro l
  induction l with
  | nil => intro x h; simp at h
  | cons a as ih =>
    intro x h
    cases hp : p a with
    | true =>
      rw [List.find?_cons_of_pos _ hp] at h
      obtain rfl := Option.some.inj h
      exact ⟨[], as, rfl, by simp, hp⟩
    | false =>
      rw [List.find?_cons_of_neg _ (by simp [hp])] at h
      obtain ⟨l1, l2, rfl, h1, h2⟩ := ih x h
      refine ⟨a :: l1, l2, rfl, ?_, h2⟩
      intro g hg
      rcases List.mem_cons.mp hg with rfl | hg2
      · exact hp
      · exact h1 g hg2

/-- The first-missing-field behaviour of one section: no error when every
field marker occurs in the body; exactly one error naming the first
missing marker in the fixed field order otherwise. -/
theorem sectionFieldErrs_spec (mk : String → String → String) (fields : List String)
    (n : String) (b : List String) :
    ((∀ f ∈ fields, bodyContains b f = true) → sectionFieldErrs mk fields n b = [])
    ∧ ((∃ f ∈ fields, bodyContains b f = false) →
        ∃ f l1 l2, fields = l1 ++ f :: l2
          ∧ (∀ g ∈ l1, bodyContains b g = true)
          ∧ bodyContains b f = false
          ∧ sectionFieldErrs mk fields n b = [mk n f]) := by
  constructor
  · intro hall
    unfold sectionFieldErrs
    rw [List.find?_eq_none.mpr ?_]
    intro f hf
    simp [hall f hf]
  · rintro ⟨f0, hf0, hmiss⟩
    cases hfind : fields.find? (fun f => !(bodyContains b f)) with
    | none =>
      exfalso
      have := List.find?_eq_none.mp hfind f0 hf0
      simp [hmiss] at this
    | some f =>
      obtain ⟨l1, l2, heq, h1, h2⟩ := find?_eq_some_split _ fields f hfind
      refine ⟨f, l1, l2, heq, ?_, ?_, ?_⟩
      · intro g hg
        have := h1 g hg
        simpa using this
      · simpa using h2
      · unfold sectionFieldErrs
        rw [hfind]

/-- C6: for each documented section (architecture or protocol), the
required-field pass contributes nothing when no marker is missing, and
exactly one error — naming the first missing marker in the fixed field
order — when one or more are; the pass over the whole document is the
concatenation of these per-section contributions. -/
theorem c6_required_field_short_circuit (docLines : List String)
    (n : String) (b : List String) :
    ((n, b) ∈ archSections docLines →
      ((∀ f ∈ archRequiredFields, bodyContains b f = true) →
          sectionFieldErrs archFieldMsg archRequiredFields n b = [])
      ∧ ((∃ f ∈ archRequiredFields, bodyContains b f = false) →
          ∃ f l1 l2, archRequiredFields = l1 ++ f :: l2
            ∧ (∀ g ∈ l1, bodyContains b g = true)
            ∧ bodyContains b f = false
            ∧ sectionFieldErrs archFieldMsg archRequiredFields n b
              = [archFieldMsg n f]))
    ∧ ((n, b) ∈ novaSections docLines →
      ((∀ f ∈ protoRequiredFields, bodyContains b f = true) →
          sectionFieldErrs protoFieldMsg protoRequiredFields n b = [])
      ∧ ((∃ f ∈ protoRequiredFields, bodyContains b f = false) →
          ∃ f l1 l2, protoRequiredFields = l1 ++ f :: l2
            ∧ (∀ g ∈ l1, bodyContains b g = true)
            ∧ bodyContains b f = false
            ∧ sectionFieldErrs protoFieldMsg protoRequiredFields n b
              = [protoFieldMsg n f]))
    ∧ requiredFieldErrors archFieldMsg archRequiredFields (archSections docLines)
        = (archSections docLines).flatMap
            (fun s => sectionFieldErrs archFieldMsg archRequiredFields s.1 s.2)
    ∧ requiredFieldErrors protoFieldMsg protoRequiredFields (novaSections docLines)
        = (novaSections docLines).flatMap
            (fun s => sectionFieldErrs protoFieldMsg protoRequiredFields s.1 s.2) := by
  exact ⟨fun _ => sectionFieldErrs_spec archFieldMsg archRequiredFields n b,
    fun _ => sectionFieldErrs_spec protoFieldMsg protoRequiredFields n b, rfl, rfl⟩

/-- C6 witness: a section with only its `Purpose` marker present is
missing three of four fields; it contributes exactly the one error naming
`Key entry points`, the first missing field in order. -/
theorem c6_witness :
    ∃ f l1 l2, archRequiredFields = l1 ++ f :: l2
      ∧ (∀ g ∈ l1, bodyContains ["", "- **Purpose:** p"] g = true)
      ∧ bodyContains ["", "- **Purpose:** p"] f = false
      ∧ sectionFieldErrs archFieldMsg archRequiredFields "core" ["", "- **Purpose:** p"]
        = [archFieldMsg "core" f] :=
  ((c6_required_field_short_circuit ["### `core`", "- **Purpose:** p"] "core"
      ["", "- **Purpose:** p"]).1 (by decide)).2 (by decide)

end DocsCheck

namespace DocsCheck

theorem charListLE_total : ∀ a b : List Char, charListLE a b = true ∨ charListLE b a = true := by
  intro a
  induction a with
  | nil => intro b; left; cases b <;> rfl
  | cons x xs ih =>
    intro b
    cases b with
    | nil => right; rfl
    | cons y ys =>
      by_cases hxy : x = y
      · subst hxy
        rcases ih ys with h | h
        · left; simpa [charListLE] using h
        · right; simpa [charListLE] using h
      · rcases lt_or_gt_of_ne hxy with h | h
        · left; simp [charListLE, hxy, h]
        · right; simp [charListLE, Ne.symm hxy, h]

theorem charListLE_trans : ∀ a b c : List Char,
    charListLE a b = true → charListLE b c = true → charListLE a c = true := by
  intro a
  induction a with
  | nil => intro b c _ _; cases c <;> rfl
  | cons x xs ih =>
    intro b c hab hbc
    cases b with
    | nil => simp [charListLE] at hab
    | cons y ys =>
      cases c with
      | nil => simp [charListLE] at hbc
      | cons z zs =>
        by_cases hxy : x = y
        · subst hxy
          by_cases hyz : x = z
          · subst hyz
            simp only [charListLE, if_pos rfl] at hab hbc ⊢
            exact ih ys zs hab hbc
          · simp only [charListLE, if_pos rfl] at hab
            simpa [charListLE, hyz] using hbc
        · by_cases hyz : y = z
          · subst hyz
            simpa [charListLE, hxy] using hab
          · simp only [charListLE, if_neg hxy, decide_eq_true_eq] at hab
            simp only [charListLE, if_neg hyz, decide_eq_true_eq] at hbc
            have hxz : x < z := lt_trans hab hbc
            simp [charListLE, ne_of_lt hxz, hxz]

instance : IsTotal String strLe := ⟨fun a b => charListLE_total a.data b.data⟩

instance : IsTrans String strLe := ⟨fun a b c => charListLE_trans a.data b.data c.data⟩

theorem strAppend_assoc (a b c : String) : a ++ b ++ c = a ++ (b ++ c) := by
  obtain ⟨x⟩ := a
  obtain ⟨y⟩ := b
  obtain ⟨z⟩ := c
  show String.mk (x ++ y ++ z) = String.mk (x ++ (y ++ z))
  rw [List.append_assoc]

theorem not_prefix_of_take_ne (p q : List Char)
    (hne : p.take (min p.length q.length) ≠ q.take (min p.length q.length)) :
    ∀ s, p.isPrefixOf (q ++ s) = false := by
  intro s
  rw [Bool.eq_false_iff]
  intro hpre
  rw [ List.isPrefixOf_iff_prefix] at hpre
  have hp := List.prefix_iff_eq_take.mp hpre
  apply hne
  have h1 : p.take (min p.length q.length) = ((q ++ s).take p.length).take (min p.length q.length) := by
    rw [← hp]
  rw [List.take_take, min_comm, min_assoc, min_self] at h1
  have h2 : (q ++ s).take (min p.length q.length) = q.take (min p.length q.length) := by
    rw [List.take_append_eq_append_take]
    have hz : min p.length q.length - q.length = 0 := by omega
    rw [hz]
    simp
  rw [min_comm] at h1
  rw [h1, h2]

/-- A fixed prefix that diverges from `p` within their common length never
heads a string extending it. -/
theorem strStartsWith_false_fixed (p a : String)
    (h : p.data.take (min p.data.length a.data.length)
      ≠ a.data.take (min p.data.length a.data.length)) (v : String) :
    strStartsWith p (a ++ v) = false := by
  unfold strStartsWith
  obtain ⟨x⟩ := a
  obtain ⟨y⟩ := v
  show p.data.isPrefixOf (x ++ y) = false
  exact not_prefix_of_take_ne p.data x h y

theorem strStartsWith_append_self (p v : String) : strStartsWith p (p ++ v) = true := by
  unfold strStartsWith
  obtain ⟨x⟩ := p
  obtain ⟨y⟩ := v
  show List.isPrefixOf (x : List Char) (x ++ y) = true
  rw [ List.isPrefixOf_iff_prefix]
  exact List.prefix_append x y

theorem requiredFieldErrors_mem (mk : String → String → String) (fields : List String)
    (secs : List (String × List String)) (e : String)
    (he : e ∈ requiredFieldErrors mk fields secs) : ∃ n f, e = mk n f := by
  unfold requiredFieldErrors at he
  rw [List.mem_flatMap] at he
  obtain ⟨s, _, he2⟩ := he
  unfold sectionFieldErrs at he2
  split at he2
  · rename_i f hf
    simp only [List.mem_singleton] at he2
    exact ⟨s.1, f, he2⟩
  · simp at he2

theorem archOrderErrs_mem (crates docLines : List String) (e : String)
    (he : e ∈ archOrderErrs crates docLines) : ∃ v, e = archOrderMsgHead ++ v := by
  unfold archOrderErrs at he
  split at he
  · split at he
    · rename_i i a x heq
      simp only [List.mem_singleton] at he
      refine ⟨toString i ++ (" is `" ++ (a ++ ("` but expected `" ++ (x ++ "`")))), ?_⟩
      rw [he]
      simp [strAppend_assoc]
    · simp at he
  · simp at he

end DocsCheck

namespace DocsCheck

theorem archFieldMsg_eq (n f : String) :
    archFieldMsg n f = "docs/architecture-map.md crate section `"
      ++ (n ++ ("` is missing required field: " ++ f)) := by
  unfold archFieldMsg
  rw [strAppend_assoc, strAppend_assoc]

/-- Filtering the architecture report by a predicate that rejects the
duplicate, required-field and ordering messages keeps exactly the missing
and extra messages. -/
theorem archErrors_filter_keep_missing_extra (crates docLines : List String)
    (P : String → Bool)
    (h1 : ∀ v, P (archDupMsgHead ++ v) = false)
    (h2 : ∀ n f, P (archFieldMsg n f) = false)
    (h3 : ∀ v, P (archOrderMsgHead ++ v) = false) :
    (archErrors crates docLines).filter P
      = ((if (archMissing crates docLines).isEmpty then []
          else [archMissingMsgHead
            ++ String.intercalate ", " (archMissing crates docLines)])
        ++ (if (archExtra crates docLines).isEmpty then []
            else [archExtraMsgHead
              ++ String.intercalate ", " (archExtra crates docLines)])).filter P := by
  unfold archErrors
  rw [List.filter_append, List.filter_append, List.filter_append, List.filter_append]
  have hdup : (if (archDuplicates docLines).isEmpty then []
      else [archDupMsgHead ++ String.intercalate ", " (archDuplicates docLines)]).filter P
        = [] := by
    split
    · rfl
    · simp [List.filter, h1]
  have hfield : (requiredFieldErrors archFieldMsg archRequiredFields
      (archSections docLines)).filter P = [] := by
    rw [List.filter_eq_nil_iff]
    intro e he
    obtain ⟨n, f, rfl⟩ := requiredFieldErrors_mem _ _ _ e he
    simp [h2]
  have hord : (archOrderErrs crates docLines).filter P = [] := by
    rw [List.filter_eq_nil_iff]
    intro e he
    obtain ⟨v, rfl⟩ := archOrderErrs_mem _ _ e he
    simp [h3]
  rw [hdup, hfield, hord, List.filter_append]
  simp

/-- Filtering the architecture report by a predicate that rejects the
duplicate, missing, extra and required-field messages keeps exactly the
ordering messages. -/
theorem archErrors_filter_keep_order (crates docLines : List String)
    (P : String → Bool)
    (h1 : ∀ v, P (archDupMsgHead ++ v) = false)
    (h2 : ∀ v, P (archMissingMsgHead ++ v) = false)
    (h3 : ∀ v, P (archExtraMsgHead ++ v) = false)
    (h4 : ∀ n f, P (archFieldMsg n f) = false) :
    (archErrors crates docLines).filter P
      = (archOrderErrs crates docLines).filter P := by
  unfold archErrors
  rw [List.filter_append, List.filter_append, List.filter_append, List.filter_append]
  have hdup : (if (archDuplicates docLines).isEmpty then []
      else [archDupMsgHead ++ String.intercalate ", " (archDuplicates docLines)]).filter P
        = [] := by
    split
    · rfl
    · simp [List.filter, h1]
  have hmiss : (if (archMissing crates docLines).isEmpty then []
      else [archMissingMsgHead ++ String.intercalate ", " (archMissing crates docLines)]).filter P
        = [] := by
    split
    · rfl
    · simp [List.filter, h2]
  have hextra : (if (archExtra crates docLines).isEmpty then []
      else [archExtraMsgHead ++ String.intercalate ", " (archExtra crates docLines)]).filter P
        = [] := by
    split
    · rfl
    · simp [List.filter, h3]
  have hfield : (requiredFieldErrors archFieldMsg archRequiredFields
      (archSections docLines)).filter P = [] := by
    rw [List.filter_eq_nil_iff]
    intro e he
    obtain ⟨n, f, rfl⟩ := requiredFieldErrors_mem _ _ _ e he
    simp [h4]
  rw [hdup, hmiss, hextra, hfield]
  simp

/-- C4: over every inventory (sorted, duplicate-free) and every document,
the reported missing set is exactly the inventory minus the documented
names and the reported extra set exactly the documented names minus the
inventory; both renderings are sorted; and the report holds exactly one
missing-message (the sorted comma-join) when the difference is nonempty
and none otherwise, and likewise for extra. -/
theorem c4_missing_extra_sets (crates docLines : List String)
    (hsorted : List.Sorted strLe crates) (hnodup : crates.Nodup) :
    (∀ c, c ∈ archMissing crates docLines
        ↔ c ∈ crates ∧ ¬ c ∈ archDocList docLines)
    ∧ (∀ c, c ∈ archExtra crates docLines
        ↔ c ∈ archDocList docLines ∧ ¬ c ∈ crates)
    ∧ List.Sorted strLe (archMissing crates docLines)
    ∧ List.Sorted strLe (archExtra crates docLines)
    ∧ (archErrors crates docLines).filter (fun e => strStartsWith archMissingMsgHead e)
        = (if (archMissing crates docLines).isEmpty then []
           else [archMissingMsgHead
             ++ String.intercalate ", " (archMissing crates docLines)])
    ∧ (archErrors crates docLines).filter (fun e => strStartsWith archExtraMsgHead e)
        = (if (archExtra crates docLines).isEmpty then []
           else [archExtraMsgHead
             ++ String.intercalate ", " (archExtra crates docLines)]) := by
  have hmemS : ∀ x, x ∈ sortStr (archDocList docLines).dedup ↔ x ∈ archDocList docLines := by
    intro x
    unfold sortStr
    rw [(List.perm_insertionSort strLe _).mem_iff, List.mem_dedup]
  refine ⟨?_, ?_, ?_, ?_, ?_, ?_⟩
  · intro c
    unfold archMissing
    rw [List.mem_filter]
    simp
  · intro c
    unfold archExtra
    rw [List.mem_filter]
    simp [hmemS]
  · exact List.Pairwise.sublist (List.filter_sublist _) hsorted
  · exact List.Pairwise.sublist (List.filter_sublist _)
      (List.sorted_insertionSort strLe _)
  · rw [archErrors_filter_keep_missing_extra crates docLines _
      (fun v => strStartsWith_false_fixed _ _ (by decide) v)
      (fun n f => by rw [archFieldMsg_eq]; exact strStartsWith_false_fixed _ _ (by decide) _)
      (fun v => strStartsWith_false_fixed _ _ (by decide) v)]
    rw [List.filter_append]
    have hextra : (if (archExtra crates docLines).isEmpty then []
        else [archExtraMsgHead ++ String.intercalate ", " (archExtra crates docLines)]).filter
          (fun e => strStartsWith archMissingMsgHead e) = [] := by
      split
      · rfl
      · simp [List.filter, strStartsWith_false_fixed archMissingMsgHead archExtraMsgHead (by decide)]
    rw [hextra]
    split
    · rfl
    · simp [List.filter, strStartsWith_append_self]
  · rw [archErrors_filter_keep_missing_extra crates docLines _
      (fun v => strStartsWith_false_fixed _ _ (by decide) v)
      (fun n f => by rw [archFieldMsg_eq]; exact strStartsWith_false_fixed _ _ (by decide) _)
      (fun v => strStartsWith_false_fixed _ _ (by decide) v)]
    rw [List.filter_append]
    have hmiss : (if (archMissing crates docLines).isEmpty then []
        else [archMissingMsgHead ++ String.intercalate ", " (archMissing crates docLines)]).filter
          (fun e => strStartsWith archExtraMsgHead e) = [] := by
      split
      · rfl
      · simp [List.filter, strStartsWith_false_fixed archExtraMsgHead archMissingMsgHead (by decide)]
    rw [hmiss]
    split
    · rfl
    · simp [List.filter, strStartsWith_append_self]

/-- C4 witness: inventory `a, c` against documented `b, c`: missing is
exactly `a`, extra exactly `b`, each in its own single message. -/
theorem c4_witness :
    (archErrors ["a", "c"] ["### `b`", "### `c`"]).filter
        (fun e => strStartsWith archMissingMsgHead e)
      = (if (archMissing ["a", "c"] ["### `b`", "### `c`"]).isEmpty then []
         else [archMissingMsgHead
           ++ String.intercalate ", " (archMissing ["a", "c"] ["### `b`", "### `c`"])])
    ∧ (archErrors ["a", "c"] ["### `b`", "### `c`"]).filter
        (fun e => strStartsWith archExtraMsgHead e)
      = (if (archExtra ["a", "c"] ["### `b`", "### `c`"]).isEmpty then []
         else [archExtraMsgHead
           ++ String.intercalate ", " (archExtra ["a", "c"] ["### `b`", "### `c`"])]) :=
  ⟨(c4_missing_extra_sets ["a", "c"] ["### `b`", "### `c`"] (by decide) (by decide)).2.2.2.2.1,
   (c4_missing_extra_sets ["a", "c"] ["### `b`", "### `c`"] (by decide) (by decide)).2.2.2.2.2⟩

end DocsCheck

namespace DocsCheck

theorem sortStr_eq_nil {l : List String} (h : sortStr l = []) : l = [] := by
  unfold sortStr at h
  have hp := (List.perm_insertionSort strLe l).symm
  rw [h] at hp
  exact hp.eq_nil

theorem archDuplicates_nil_nodup (docLines : List String)
    (h : archDuplicates docLines = []) : (archDocList docLines).Nodup := by
  unfold archDuplicates at h
  have h2 := sortStr_eq_nil h
  rw [List.filter_eq_nil_iff] at h2
  rw [List.nodup_iff_count_le_one]
  intro a
  by_cases hm : a ∈ archDocList docLines
  · have h3 := h2 a (List.mem_dedup.mpr hm)
    simp only [decide_eq_true_eq] at h3
    omega
  · simp [List.count_eq_zero_of_not_mem hm]

theorem firstDiff_some : ∀ (l1 l2 : List String) (i : Nat),
    l1.length = l2.length → l1 ≠ l2 → (firstDiff i l1 l2).isSome = true := by
  intro l1
  induction l1 with
  | nil =>
    intro l2 i hlen hne
    cases l2 with
    | nil => exact absurd rfl hne
    | cons b bs => simp at hlen
  | cons a as ih =>
    intro l2 i hlen hne
    cases l2 with
    | nil => simp at hlen
    | cons b bs =>
      by_cases hab : a = b
      · subst hab
        have has : as ≠ bs := by
          intro h
          exact hne (by rw [h])
        simp only [firstDiff, if_pos rfl]
        exact ih bs (i + 1) (by simpa using hlen) has
      · simp [firstDiff, hab]

theorem firstDiff_spec : ∀ (l1 l2 : List String) (i j : Nat) (a e : String),
    firstDiff i l1 l2 = some (j, a, e) →
    ∃ pre t1 t2, l1 = pre ++ a :: t1 ∧ l2 = pre ++ e :: t2
      ∧ a ≠ e ∧ j = i + pre.length := by
  intro l1
  induction l1 with
  | nil => intro l2 i j a e h; cases l2 <;> simp [firstDiff] at h
  | cons x xs ih =>
    intro l2 i j a e h
    cases l2 with
    | nil => simp [firstDiff] at h
    | cons y ys =>
      by_cases hxy : x = y
      · subst hxy
        rw [firstDiff, if_pos rfl] at h
        obtain ⟨pre, t1, t2, h1, h2, h3, h4⟩ := ih ys (i + 1) j a e h
        refine ⟨x :: pre, t1, t2, by rw [h1]; rfl, by rw [h2]; rfl, h3, ?_⟩
        simp only [List.length_cons]
        omega
      · rw [firstDiff, if_neg hxy] at h
        simp only [Option.some.injEq, Prod.mk.injEq] at h
        obtain ⟨rfl, rfl, rfl⟩ := h
        exact ⟨[], xs, ys, rfl, rfl, hxy, by simp⟩

/-- C5: the ordering check contributes nothing unless the duplicate,
missing and extra checks were all clean and the documented order differs
from the (sorted, duplicate-free) inventory; in that case the report holds
exactly one ordering message, naming the first diverging 1-based position
together with the actual and expected entries, and no message for any
later divergence. -/
theorem c5_ordering_first_divergence (crates docLines : List String)
    (hsorted : List.Sorted strLe crates) (hnodup : crates.Nodup) :
    ((¬ (archDuplicates docLines = [] ∧ archMissing crates docLines = []
        ∧ archExtra crates docLines = [] ∧ archDocList docLines ≠ crates)) →
      (archErrors crates docLines).filter (fun e => strStartsWith archOrderMsgHead e)
        = [])
    ∧ ((archDuplicates docLines = [] ∧ archMissing crates docLines = []
        ∧ archExtra crates docLines = [] ∧ archDocList docLines ≠ crates) →
      ∃ i a e pre t1 t2,
        firstDiff 1 (archDocList docLines) crates = some (i, a, e)
        ∧ archDocList docLines = pre ++ a :: t1
        ∧ crates = pre ++ e :: t2
        ∧ a ≠ e ∧ i = pre.length + 1
        ∧ (archErrors crates docLines).filter (fun e2 => strStartsWith archOrderMsgHead e2)
          = [archOrderMsgHead ++ toString i ++ " is `" ++ a
              ++ "` but expected `" ++ e ++ "`"]) := by
  have hfilter := archErrors_filter_keep_order crates docLines
    (fun e2 => strStartsWith archOrderMsgHead e2)
    (fun v => strStartsWith_false_fixed _ _ (by decide) v)
    (fun v => strStartsWith_false_fixed _ _ (by decide) v)
    (fun v => strStartsWith_false_fixed _ _ (by decide) v)
    (fun n f => by rw [archFieldMsg_eq]; exact strStartsWith_false_fixed _ _ (by decide) _)
  constructor
  · intro hnc
    rw [hfilter]
    by_cases hb : ((archDuplicates docLines).isEmpty
        && (archMissing crates docLines).isEmpty
        && (archExtra crates docLines).isEmpty
        && !(archDocList docLines == crates)) = true
    · exfalso
      apply hnc
      simp only [Bool.and_eq_true, Bool.not_eq_true', beq_eq_false_iff_ne,
        List.isEmpty_iff] at hb
      exact ⟨hb.1.1.1, hb.1.1.2, hb.1.2, hb.2⟩
    · unfold archOrderErrs
      rw [if_neg hb]
      rfl
  · rintro ⟨hd, hm, he, hne⟩
    have hb : ((archDuplicates docLines).isEmpty
        && (archMissing crates docLines).isEmpty
        && (archExtra crates docLines).isEmpty
        && !(archDocList docLines == crates)) = true := by
      rw [hd, hm, he]
      simp [hne]
    have hnodupDoc : (archDocList docLines).Nodup := archDuplicates_nil_nodup docLines hd
    have hsub1 : ∀ c ∈ crates, c ∈ archDocList docLines := by
      intro c hc
      unfold archMissing at hm
      rw [List.filter_eq_nil_iff] at hm
      have := hm c hc
      simpa using this
    have hsub2 : ∀ c ∈ archDocList docLines, c ∈ crates := by
      intro c hc
      unfold archExtra at he
      rw [List.filter_eq_nil_iff] at he
      have hc2 : c ∈ sortStr (archDocList docLines).dedup := by
        unfold sortStr
        rw [(List.perm_insertionSort strLe _).mem_iff, List.mem_dedup]
        exact hc
      have := he c hc2
      simpa using this
    have hperm : List.Perm (archDocList docLines) crates :=
      (List.perm_ext_iff_of_nodup hnodupDoc hnodup).mpr
        (fun a => ⟨fun h => hsub2 a h, fun h => hsub1 a h⟩)
    have hlen : (archDocList docLines).length = crates.length := hperm.length_eq
    have hfdsome := firstDiff_some (archDocList docLines) crates 1 hlen hne
    cases hfd : firstDiff 1 (archDocList docLines) crates with
    | none => rw [hfd] at hfdsome; simp at hfdsome
    | some t =>
      obtain ⟨i, a, e⟩ := t
      obtain ⟨pre, t1, t2, h1, h2, h3, h4⟩ :=
        firstDiff_spec (archDocList docLines) crates 1 i a e hfd
      refine ⟨i, a, e, pre, t1, t2, rfl, h1, h2, h3, by omega, ?_⟩
      rw [hfilter]
      unfold archOrderErrs
      rw [if_pos hb, hfd]
      have hmsg : archOrderMsgHead ++ toString i ++ " is `" ++ a
          ++ "` but expected `" ++ e ++ "`"
          = archOrderMsgHead ++ (toString i ++ (" is `" ++ (a
            ++ ("` but expected `" ++ (e ++ "`"))))) := by
        simp [strAppend_assoc]
      rw [List.filter]
      rw [show (strStartsWith archOrderMsgHead (archOrderMsgHead ++ toString i ++ " is `"
        ++ a ++ "` but expected `" ++ e ++ "`")) = true from
        hmsg ▸ strStartsWith_append_self archOrderMsgHead _]
      rfl

/-- C5 witness: inventory `a, b, c` documented in order `a, c, b`: the
single ordering message names position 2, actual `c`, expected `b`. -/
theorem c5_witness :
    ∃ i a e pre t1 t2,
      firstDiff 1 (archDocList ["### `a`", "### `c`", "### `b`"]) ["a", "b", "c"]
        = some (i, a, e)
      ∧ archDocList ["### `a`", "### `c`", "### `b`"] = pre ++ a :: t1
      ∧ ["a", "b", "c"] = pre ++ e :: t2
      ∧ a ≠ e ∧ i = pre.length + 1
      ∧ (archErrors ["a", "b", "c"] ["### `a`", "### `c`", "### `b`"]).filter
          (fun e2 => strStartsWith archOrderMsgHead e2)
        = [archOrderMsgHead ++ toString i ++ " is `" ++ a
            ++ "` but expected `" ++ e ++ "`"] :=
  (c5_ordering_first_divergence ["a", "b", "c"] ["### `a`", "### `c`", "### `b`"]
      (by decide) (by decide)).2 ⟨by decide, by decide, by decide, by decide⟩

end DocsCheck
